import Mathlib

/-!
Shallow embedding of the bowling-lane allocator in `banen.py`.

Timestamps are modelled as natural numbers counting minutes (so a
minute-of-hour is `t % 60`, a time-of-day is `t % 1440`, and a calendar
date is `t / 1440`).  Group identifiers stay strings, as in the source.
The mutable per-lane booking dictionary `lanes = {i: [] for i in range(1, 9)}`
becomes a total function from lane numbers to interval lists, and the
accumulating `assignments` list and the `previous_assignment` dictionary
(written at line 190 of the source and never read) are carried alongside
it in an explicit state record.
-/

namespace Banen

/-- One input row of the reservation spreadsheet: group name (`Groep`),
start time (`Begindatum`, in minutes) and party size (`Aantal`). -/
structure Reservation where
  groep : String
  start : Nat
  aantal : Nat
deriving DecidableEq, Repr

/-- `calculate_lanes_needed` (banen.py lines 24-33): 6 persons per lane
rounded up for parties of 4 or more, and the party size itself read as a
lane count below 4. -/
def calculate_lanes_needed (aantal : Nat) : Nat :=
  if 4 ≤ aantal then (aantal + 5) / 6 else aantal

/-- The booking-info dictionary assembled per row in the slot loop
(banen.py lines 89-95): group, derived lane count, slot start and
end = start + 55 minutes. -/
structure Booking where
  groep : String
  lanesNeeded : Nat
  start : Nat
  endTime : Nat
deriving DecidableEq, Repr

/-- One emitted assignment record (banen.py lines 183-188). -/
structure Assignment where
  groep : String
  start : Nat
  endTime : Nat
  lanes : List Nat
deriving DecidableEq, Repr

/-- The allocator's mutable state: per-lane booked intervals, the emitted
assignment list, and the write-only `previous_assignment` dictionary. -/
structure AllocState where
  lanes : Nat → List (Nat × Nat)
  assignments : List Assignment
  prev : String → Option (Nat × List Nat)

/-- Initial state: all eight lanes empty, no assignments (banen.py
lines 37-39, 62). -/
def initState : AllocState :=
  { lanes := fun _ => [], assignments := [], prev := fun _ => none }

/-- `is_lane_free` (banen.py lines 45-53): a lane is free on `[s, e)` iff
no recorded interval overlaps it under the half-open test. -/
def is_lane_free (st : AllocState) (lane s e : Nat) : Bool :=
  (st.lanes lane).all fun iv => !(decide (s < iv.2) && decide (e > iv.1))

/-- The facing-pair table (banen.py line 61). -/
def facing_pairs : List (Nat × Nat) := [(1, 2), (3, 4), (5, 6), (7, 8)]

/-- Eligible lanes for a start time: lanes 1-4 on the hour, lanes 5-8 on
the half hour (banen.py lines 115-120). -/
def possible_lanes (s : Nat) : List Nat :=
  if s % 60 == 0 then [1, 2, 3, 4] else [5, 6, 7, 8]

/-- Eligible facing pairs for a start time (banen.py lines 115-120). -/
def possible_pairs (s : Nat) : List (Nat × Nat) :=
  if s % 60 == 0 then [(1, 2), (3, 4)] else [(5, 6), (7, 8)]

/-- The consecutive-booking test of the classification loop (banen.py
lines 82-87): some existing assignment of the same group started exactly
one hour before the current slot. -/
def isConsecutive (assignments : List Assignment) (groep : String) (slotStart : Nat) : Bool :=
  assignments.any fun a => a.groep == groep && a.start + 60 == slotStart

/-- The predicate used to locate the previous assignment inside the
consecutive-booking branch (banen.py lines 133-135). -/
def prevMatch (b : Booking) (a : Assignment) : Bool :=
  a.groep == b.groep && a.start + 60 == b.start

/-- PRIORITY 1, the consecutive-booking branch (banen.py lines 128-153):
take the first assignment of the same group that started one hour
earlier; reuse its lanes when the lane count matches and every one of
those lanes is still free, otherwise leave `assigned_lanes` empty. -/
def continuityLanes (consecutive : Bool) (st : AllocState) (b : Booking) : List Nat :=
  if consecutive then
    match st.assignments.find? (prevMatch b) with
    | some a =>
      if a.lanes.length == b.lanesNeeded
          && a.lanes.all (fun l => is_lane_free st l b.start b.endTime) then
        a.lanes
      else []
    | none => []
  else []

/-- The facing-pair pass (banen.py lines 157-164): scan the eligible
pairs; where both lanes are free, take exactly that pair and stop when
two lanes are needed, or accumulate the whole pair and keep scanning
when more than two are needed. -/
def pairPass (st : AllocState) (s e n : Nat) : List (Nat × Nat) → List Nat → List Nat
  | [], acc => acc
  | p :: rest, acc =>
    if is_lane_free st p.1 s e && is_lane_free st p.2 s e then
      if n == 2 then [p.1, p.2]
      else if 2 < n then pairPass st s e n rest (acc ++ [p.1, p.2])
      else pairPass st s e n rest acc
    else pairPass st s e n rest acc

/-- The fill-remainder pass (banen.py lines 167-172): walk the eligible
lanes in order, appending any free lane not already taken, and stop as
soon as the accumulated count equals the requirement. -/
def fillPass (st : AllocState) (s e n : Nat) : List Nat → List Nat → List Nat
  | [], acc => acc
  | l :: rest, acc =>
    let acc2 := if !acc.contains l && is_lane_free st l s e then acc ++ [l] else acc
    if acc2.length == n then acc2 else fillPass st s e n rest acc2

/-- PRIORITY 2, the normal assignment logic (banen.py lines 156-172):
facing-pair pass followed by the fill-remainder pass when the pair pass
left the requirement unmet. -/
def greedyLanes (st : AllocState) (b : Booking)
    (pairs : List (Nat × Nat)) (poss : List Nat) : List Nat :=
  let ap := pairPass st b.start b.endTime b.lanesNeeded pairs []
  if ap.length < b.lanesNeeded then fillPass st b.start b.endTime b.lanesNeeded poss ap else ap

/-- Book every assigned lane for `[s, e)` (banen.py lines 180-181). -/
def bookLanes (f : Nat → List (Nat × Nat)) (ls : List Nat) (s e : Nat) :
    Nat → List (Nat × Nat) :=
  ls.foldl (fun g l => fun x => if x == l then g x ++ [(s, e)] else g x) f

/-- The body of the per-booking loop after the eligible pools have been
fixed (banen.py lines 125-190): continuity first, greedy fallback, the
`len(assigned_lanes) < lanes_needed` skip, then booking, emission and
the `previous_assignment` update. -/
def assignFromPools (consecutive : Bool) (st : AllocState) (b : Booking)
    (pairs : List (Nat × Nat)) (poss : List Nat) : AllocState :=
  let a0 := continuityLanes consecutive st b
  let a1 := if a0.isEmpty then greedyLanes st b pairs poss else a0
  if a1.length < b.lanesNeeded then st
  else
    { lanes := bookLanes st.lanes a1 b.start b.endTime
      assignments := st.assignments ++
        [{ groep := b.groep, start := b.start, endTime := b.endTime, lanes := a1 }]
      prev := fun g => if g == b.groep then some (b.endTime, a1) else st.prev g }

/-- One iteration of the per-booking loop (banen.py lines 108-190): pick
the eligible pools from the start minute, or skip the reservation when
the minute is neither 0 nor 30. -/
def processBooking (consecutive : Bool) (st : AllocState) (b : Booking) : AllocState :=
  if b.start % 60 == 0 then
    assignFromPools consecutive st b [(1, 2), (3, 4)] [1, 2, 3, 4]
  else if b.start % 60 == 30 then
    assignFromPools consecutive st b [(5, 6), (7, 8)] [5, 6, 7, 8]
  else st

/-- Build the booking-info record for a row of the current slot
(banen.py lines 89-95). -/
def mkBooking (t : Nat) (r : Reservation) : Booking :=
  { groep := r.groep, lanesNeeded := calculate_lanes_needed r.aantal
    start := t, endTime := t + 55 }

/-- The processing sequence of one time slot (banen.py lines 72-106):
rows are flagged by the consecutive-booking test against the assignments
existing when the slot starts, and the consecutive ones are placed ahead
of the new ones. -/
def slotSequence (assignments : List Assignment) (t : Nat) (rows : List Reservation) :
    List (Bool × Booking) :=
  let flagged := rows.map fun r => (isConsecutive assignments r.groep t, mkBooking t r)
  flagged.filter (fun x => x.1) ++ flagged.filter (fun x => !x.1)

/-- Process one time slot (banen.py lines 68-190). -/
def processSlot (st : AllocState) (t : Nat) (rows : List Reservation) : AllocState :=
  (slotSequence st.assignments t rows).foldl (fun s x => processBooking x.1 s x.2) st

/-- Lexicographic comparison of char lists, matching Python's string
ordering by code point. -/
def strLt : List Char → List Char → Bool
  | [], [] => false
  | [], _ :: _ => true
  | _ :: _, [] => false
  | a :: as, b :: bs => if a < b then true else if b < a then false else strLt as bs

/-- Strict order on the sort key `(Begindatum, Groep)` used by
`df.sort_values(by=['Begindatum', 'Groep'])` (banen.py line 42). -/
def resLt (a b : Reservation) : Bool :=
  decide (a.start < b.start) || (a.start == b.start && strLt a.groep.data b.groep.data)

/-- Insert a reservation in front of the first element that is not
strictly below it (so equal keys keep their original relative order). -/
def insRes (r : Reservation) : List Reservation → List Reservation
  | [] => [r]
  | x :: xs => if resLt x r then x :: insRes r xs else r :: x :: xs

/-- Sort the reservation rows by `(Begindatum, Groep)` (banen.py
line 42). -/
def sortRows : List Reservation → List Reservation
  | [] => []
  | r :: rs => insRes r (sortRows rs)

/-- Insert a start time into an ascending duplicate-free list. -/
def insNat (n : Nat) : List Nat → List Nat
  | [] => [n]
  | x :: xs => if x < n then x :: insNat n xs else if x == n then x :: xs else n :: x :: xs

/-- The distinct start times of the run, ascending: the keys produced by
`df.groupby('Begindatum')` (banen.py line 65). -/
def slotTimes (l : List Reservation) : List Nat :=
  l.foldr (fun r acc => insNat r.start acc) []

/-- `df.groupby('Begindatum')`: the ascending distinct start times, each
with the rows carrying that start, in their sorted order. -/
def groupSlots (l : List Reservation) : List (Nat × List Reservation) :=
  (slotTimes l).map fun t => (t, l.filter fun r => r.start == t)

/-- The whole STEP 2 + STEP 3 pipeline (banen.py lines 35-190): derive
lane counts, sort, group by start time and fold the slot loop over an
initially empty state. -/
def runAllocator (input : List Reservation) : AllocState :=
  (groupSlots (sortRows input)).foldl (fun st p => processSlot st p.1 p.2) initState

/-- The 19 half-hour slot times 13:00 .. 22:00 of the output grid, as
minutes of the day (banen.py lines 197-199). -/
def slotMinutes : List Nat := (List.range 19).map fun i => 780 + 30 * i

/-- One iteration of the schedule fill loop (banen.py lines 207-217):
an assignment whose `"%H:%M"` key is one of the grid rows writes its
group name into that row in each of its lane columns, and any other
assignment is reported and dropped.  The grid is a total function from
(minute of day, lane) to the occupying group name, empty cells holding
the empty string. -/
def projStep (acc : (Nat → Nat → String) × List Assignment) (a : Assignment) :
    (Nat → Nat → String) × List Assignment :=
  let tod := a.start % 1440
  if tod ∈ slotMinutes then
    (fun t l => if t = tod ∧ l ∈ a.lanes then a.groep else acc.1 t l, acc.2)
  else
    (acc.1, acc.2 ++ [a])

/-- STEP 4 (banen.py lines 197-217): fold the assignment list into the
schedule grid, collecting the out-of-range assignments that are only
warned about. -/
def buildSchedule (assignments : List Assignment) : (Nat → Nat → String) × List Assignment :=
  assignments.foldl projStep (fun _ _ => "", [])

/-- Two intervals are compatible when they do not overlap under the
half-open test of `is_lane_free`. -/
def ivCompat (x y : Nat × Nat) : Prop := ¬(x.1 < y.2 ∧ x.2 > y.1)

/-- Two assignments are compatible when on every lane they share their
intervals do not overlap. -/
def assignsCompat (a b : Assignment) : Prop :=
  ∀ l, l ∈ a.lanes → l ∈ b.lanes → ¬(a.start < b.endTime ∧ a.endTime > b.start)

/-- The lanes of a pair list, in scan order. -/
def pairFlat : List (Nat × Nat) → List Nat
  | [] => []
  | p :: rest => p.1 :: p.2 :: pairFlat rest

/-- The eligible lanes of a booking that are currently free. -/
def freeEligible (st : AllocState) (b : Booking) : List Nat :=
  (possible_lanes b.start).filter fun l => is_lane_free st l b.start b.endTime

/-- The allocator's state invariant: every lane's interval list is
pairwise non-overlapping, every emitted assignment has duplicate-free
lanes drawn from the eligible half of its (valid) start minute, its
interval is recorded on each of its lanes, and assignments sharing a
lane never overlap. -/
def Inv (st : AllocState) : Prop :=
  (∀ l, (st.lanes l).Pairwise ivCompat) ∧
  (∀ a ∈ st.assignments, a.lanes.Nodup) ∧
  (∀ a ∈ st.assignments, ∀ l ∈ a.lanes, (a.start, a.endTime) ∈ st.lanes l) ∧
  (∀ a ∈ st.assignments,
    (a.start % 60 = 0 ∨ a.start % 60 = 30) ∧ ∀ l ∈ a.lanes, l ∈ possible_lanes a.start) ∧
  st.assignments.Pairwise assignsCompat

theorem ceil_div6 (n : ℕ) : (((n + 5) / 6 : ℕ) : ℤ) = ⌈(n : ℚ) / 6⌉ := by
  obtain ⟨q, r, hr, hqr⟩ : ∃ q r, r < 6 ∧ n + 5 = 6 * q + r :=
    ⟨(n + 5) / 6, (n + 5) % 6, Nat.mod_lt _ (by norm_num), (Nat.div_add_mod (n + 5) 6).symm⟩
  have hq : (n + 5) / 6 = q := by omega
  rw [hq]
  have hqr' : (n : ℚ) + 5 = 6 * q + r := by exact_mod_cast hqr
  have hr' : (r : ℚ) < 6 := by exact_mod_cast hr
  have hr5 : (r : ℚ) ≤ 5 := by exact_mod_cast (by omega : r ≤ 5)
  have hr0 : (0 : ℚ) ≤ r := by positivity
  symm
  rw [Int.ceil_eq_iff]
  constructor
  · rw [lt_div_iff₀ (by norm_num : (0 : ℚ) < 6)]
    push_cast
    linarith
  · rw [div_le_iff₀ (by norm_num : (0 : ℚ) < 6)]
    push_cast
    linarith

/-- C4: for partySize ≥ 4 `calculate_lanes_needed` is the ceiling of
partySize / 6, for 1 ≤ partySize < 4 it is partySize itself, with the
boundary values 3 ↦ 3, 4 ↦ 1, 6 ↦ 1, 7 ↦ 2, 12 ↦ 2 and 13 ↦ 3. -/
theorem C4_lane_requirement : ∀ n : ℕ,
    (4 ≤ n → (calculate_lanes_needed n : ℤ) = ⌈(n : ℚ) / 6⌉) ∧
    (1 ≤ n → n < 4 → calculate_lanes_needed n = n) ∧
    (calculate_lanes_needed 3 = 3 ∧ calculate_lanes_needed 4 = 1 ∧
      calculate_lanes_needed 6 = 1 ∧ calculate_lanes_needed 7 = 2 ∧
      calculate_lanes_needed 12 = 2 ∧ calculate_lanes_needed 13 = 3) := by
  intro n
  refine ⟨fun h => ?_, fun _ h4 => ?_, by decide⟩
  · unfold calculate_lanes_needed
    rw [if_pos h]
    exact ceil_div6 n
  · unfold calculate_lanes_needed
    rw [if_neg (by omega)]

theorem C4_lane_requirement_witness :
    ((calculate_lanes_needed 7 : ℤ) = ⌈((7 : ℕ) : ℚ) / 6⌉) ∧ calculate_lanes_needed 2 = 2 :=
  ⟨(C4_lane_requirement 7).1 (by norm_num), (C4_lane_requirement 2).2.1 (by norm_num) (by norm_num)⟩

theorem projStep_warned : ∀ (as : List Assignment) (acc : (Nat → Nat → String) × List Assignment),
    (as.foldl projStep acc).2 =
      acc.2 ++ as.filter fun a => decide (a.start % 1440 ∉ slotMinutes) := by
  intro as
  induction as with
  | nil => simp
  | cons a rest ih =>
    intro acc
    rw [List.foldl_cons, ih, List.filter_cons]
    by_cases h : a.start % 1440 ∈ slotMinutes
    · simp [projStep, h]
    · simp [projStep, h]

theorem projStep_grid_congr : ∀ (as : List Assignment)
    (acc1 acc2 : (Nat → Nat → String) × List Assignment), acc1.1 = acc2.1 →
    (as.foldl projStep acc1).1 = (as.foldl projStep acc2).1 := by
  intro as
  induction as with
  | nil => intro _ _ h; exact h
  | cons a rest ih =>
    intro acc1 acc2 h
    refine ih _ _ ?_
    by_cases hm : a.start % 1440 ∈ slotMinutes
    · simp [projStep, hm, h]
    · simp [projStep, hm, h]

theorem projStep_grid_filter : ∀ (as : List Assignment)
    (acc : (Nat → Nat → String) × List Assignment),
    (as.foldl projStep acc).1 =
      ((as.filter fun a => decide (a.start % 1440 ∈ slotMinutes)).foldl projStep acc).1 := by
  intro as
  induction as with
  | nil => intro _; rfl
  | cons a rest ih =>
    intro acc
    rw [List.foldl_cons, List.filter_cons]
    by_cases h : a.start % 1440 ∈ slotMinutes
    · rw [if_pos (by simpa using h), List.foldl_cons]
      exact ih _
    · rw [if_neg (by simpa using h)]
      rw [ih _]
      refine projStep_grid_congr _ _ _ ?_
      simp [projStep, h]

/-- C9: every assignment whose time of day lies outside the 13:00-22:00
half-hour grid is collected in the warning list and contributes nothing
to the grid (the grid built from the full list equals the grid built
from the in-range sublist), and every in-range assignment is written
into its time row at each of its lane columns at the moment it is
processed.  The fold is total, so no run is ever aborted. -/
theorem C9_projector_range : ∀ as : List Assignment,
    ((buildSchedule as).2 = as.filter fun a => decide (a.start % 1440 ∉ slotMinutes)) ∧
    ((buildSchedule as).1 =
      (buildSchedule (as.filter fun a => decide (a.start % 1440 ∈ slotMinutes))).1) ∧
    (∀ (pre : List Assignment) (a : Assignment) (post : List Assignment),
      as = pre ++ a :: post → a.start % 1440 ∈ slotMinutes →
      ∀ l : Nat, l ∈ a.lanes →
        (buildSchedule (pre ++ [a])).1 (a.start % 1440) l = a.groep) := by
  intro as
  refine ⟨projStep_warned as _, projStep_grid_filter as _, ?_⟩
  intro pre a post _ hin l hl
  unfold buildSchedule
  rw [List.foldl_append]
  simp [projStep, hin, hl]

theorem C9_projector_range_witness :
    ((buildSchedule [⟨"A", 780, 835, [1, 2]⟩, ⟨"B", 600, 655, [3]⟩]).2
      = [⟨"B", 600, 655, [3]⟩]) ∧
    (buildSchedule ([] ++ [⟨"A", 780, 835, [1, 2]⟩])).1
      ((780 : Nat) % 1440) 1 = "A" := by
  constructor
  · rw [(C9_projector_range [⟨"A", 780, 835, [1, 2]⟩, ⟨"B", 600, 655, [3]⟩]).1]
    decide
  · exact (C9_projector_range ([] ++ [⟨"A", 780, 835, [1, 2]⟩])).2.2
      [] ⟨"A", 780, 835, [1, 2]⟩ [] rfl (by decide) 1 (by decide)

/-- C10: the schedule grid is keyed by time of day only.  Two
assignments on different calendar dates with the same wall-clock start
land in the same row, and on a shared lane the later-processed one
overwrites the name written by the earlier one. -/
theorem C10_rows_by_time_of_day : ∀ (pre mid : List Assignment) (a b : Assignment) (l : Nat),
    a.start % 1440 = b.start % 1440 → a.start / 1440 ≠ b.start / 1440 →
    a.start % 1440 ∈ slotMinutes →
    l ∈ a.lanes → l ∈ b.lanes →
    (buildSchedule (pre ++ [a])).1 (a.start % 1440) l = a.groep ∧
    (buildSchedule (pre ++ a :: mid ++ [b])).1 (a.start % 1440) l = b.groep := by
  intro pre mid a b l htod _ hin ha hb
  constructor
  · unfold buildSchedule
    rw [List.foldl_append]
    simp [projStep, hin, ha]
  · have hsplit : pre ++ a :: mid ++ [b] = (pre ++ a :: mid) ++ [b] := by
      simp [List.append_assoc]
    rw [hsplit]
    unfold buildSchedule
    rw [List.foldl_append]
    have hin' : b.start % 1440 ∈ slotMinutes := htod ▸ hin
    simp [projStep, hin', hb, htod]

theorem C10_rows_by_time_of_day_witness :
    (buildSchedule ([] ++ [⟨"A", 780, 835, [1]⟩])).1 ((780 : Nat) % 1440) 1 = "A" ∧
    (buildSchedule ([] ++ (⟨"A", 780, 835, [1]⟩ : Assignment) :: [] ++
      [⟨"B", 2220, 2275, [1]⟩])).1 ((780 : Nat) % 1440) 1 = "B" :=
  C10_rows_by_time_of_day [] [] ⟨"A", 780, 835, [1]⟩ ⟨"B", 2220, 2275, [1]⟩ 1
    (by decide) (by decide) (by decide) (by decide) (by decide)

/-- C1 fails on the code: a single reservation for 3 people (3 lanes
needed) at 10:00 on an empty day receives all four lanes 1-4, because
the facing-pair pass accumulates both free pairs for any requirement
above 2 and the final check only rejects a shortfall, never a surplus. -/
theorem C1_counterexample :
    ((runAllocator [⟨"A", 600, 3⟩]).assignments.map fun a => a.lanes) = [[1, 2, 3, 4]] ∧
    calculate_lanes_needed 3 = 3 ∧
    ¬ ∀ a ∈ (runAllocator [⟨"A", 600, 3⟩]).assignments,
        a.lanes.length = calculate_lanes_needed 3 := by
  refine ⟨by decide, by decide, ?_⟩
  intro h
  have := h ⟨"A", 600, 655, [1, 2, 3, 4]⟩ (by decide)
  simp [calculate_lanes_needed] at this

theorem assignFromPools_cases (c : Bool) (st : AllocState) (b : Booking)
    (pairs : List (Nat × Nat)) (poss : List Nat) :
    (assignFromPools c st b pairs poss = st ∧
      (if (continuityLanes c st b).isEmpty then greedyLanes st b pairs poss
        else continuityLanes c st b).length < b.lanesNeeded) ∨
    ∃ a1 : List Nat,
      a1 = (if (continuityLanes c st b).isEmpty then greedyLanes st b pairs poss
        else continuityLanes c st b) ∧
      ¬ a1.length < b.lanesNeeded ∧
      assignFromPools c st b pairs poss =
        { lanes := bookLanes st.lanes a1 b.start b.endTime
          assignments := st.assignments ++
            [{ groep := b.groep, start := b.start, endTime := b.endTime, lanes := a1 }]
          prev := fun g => if g == b.groep then some (b.endTime, a1) else st.prev g } := by
  by_cases h : (if (continuityLanes c st b).isEmpty then greedyLanes st b pairs poss
      else continuityLanes c st b).length < b.lanesNeeded
  · exact Or.inl ⟨if_pos h, h⟩
  · exact Or.inr ⟨_, rfl, h, if_neg h⟩

/-- C1 amended: every entry appended to the assignments list carries at
least `lanesNeeded` lanes (a reservation that cannot be fully satisfied
produces no entry at all), but the count can exceed `lanesNeeded`: with
`lanesNeeded = 3` and both facing pairs of the eligible half free, four
lanes are assigned. -/
theorem C1_no_partial_assignment : ∀ (c : Bool) (st : AllocState) (b : Booking),
    (processBooking c st b).assignments = st.assignments ∨
    ∃ ls : List Nat, b.lanesNeeded ≤ ls.length ∧
      (processBooking c st b).assignments = st.assignments ++
        [{ groep := b.groep, start := b.start, endTime := b.endTime, lanes := ls }] := by
  intro c st b
  unfold processBooking
  split
  · rcases assignFromPools_cases c st b [(1, 2), (3, 4)] [1, 2, 3, 4] with ⟨h1, _⟩ | ⟨a1, _, hlen, h1⟩
    · left; rw [h1]
    · right; exact ⟨a1, Nat.le_of_not_lt hlen, by rw [h1]⟩
  · split
    · rcases assignFromPools_cases c st b [(5, 6), (7, 8)] [5, 6, 7, 8] with ⟨h1, _⟩ | ⟨a1, _, hlen, h1⟩
      · left; rw [h1]
      · right; exact ⟨a1, Nat.le_of_not_lt hlen, by rw [h1]⟩
    · left; rfl

theorem bool_and_elim {a b : Bool} (h : (a && b) = true) : a = true ∧ b = true := by
  rw [Bool.and_eq_true] at h
  exact h

theorem free_spec {st : AllocState} {l s e : Nat} (h : is_lane_free st l s e = true) :
    ∀ iv ∈ st.lanes l, ¬(s < iv.2 ∧ e > iv.1) := by
  intro iv hm hcon
  have := List.all_eq_true.mp h iv hm
  simp [hcon.1, hcon.2] at this

theorem possible_lanes_congr {x y : Nat} (h : x % 60 = y % 60) :
    possible_lanes x = possible_lanes y := by
  unfold possible_lanes
  rw [h]

theorem mem_pairFlat : ∀ (pairs : List (Nat × Nat)) (x : Nat),
    x ∈ pairFlat pairs ↔ ∃ p ∈ pairs, x = p.1 ∨ x = p.2 := by
  intro pairs x
  induction pairs with
  | nil => simp [pairFlat]
  | cons p rest ih =>
    simp only [pairFlat, List.mem_cons, ih]
    constructor
    · rintro (h | h | ⟨q, hq, hx⟩)
      · exact ⟨p, Or.inl rfl, Or.inl h⟩
      · exact ⟨p, Or.inl rfl, Or.inr h⟩
      · exact ⟨q, Or.inr hq, hx⟩
    · rintro ⟨q, hq | hq, hx⟩
      · subst hq
        rcases hx with h | h
        · exact Or.inl h
        · exact Or.inr (Or.inl h)
      · exact Or.inr (Or.inr ⟨q, hq, hx⟩)

theorem pairPass_mem {st : AllocState} {s e n : Nat} :
    ∀ (pairs : List (Nat × Nat)) (acc : List Nat) (x : Nat),
    x ∈ pairPass st s e n pairs acc →
    x ∈ acc ∨ (x ∈ pairFlat pairs ∧ is_lane_free st x s e = true) := by
  intro pairs
  induction pairs with
  | nil =>
    intro acc x hx
    exact Or.inl hx
  | cons p rest ih =>
    intro acc x hx
    have hpairmem : ∀ y, y ∈ ([p.1, p.2] : List Nat) →
        (is_lane_free st p.1 s e && is_lane_free st p.2 s e) = true →
        y ∈ pairFlat (p :: rest) ∧ is_lane_free st y s e = true := by
      intro y hy hf
      have hff := bool_and_elim hf
      rcases (by simpa using hy : y = p.1 ∨ y = p.2) with h | h
      · exact ⟨by simp [pairFlat, h], h ▸ hff.1⟩
      · exact ⟨by simp [pairFlat, h], h ▸ hff.2⟩
    simp only [pairPass] at hx
    by_cases hf : (is_lane_free st p.1 s e && is_lane_free st p.2 s e) = true
    · rw [if_pos hf] at hx
      by_cases h2 : (n == 2) = true
      · rw [if_pos h2] at hx
        exact Or.inr (hpairmem x hx hf)
      · rw [if_neg h2] at hx
        by_cases h3 : 2 < n
        · rw [if_pos h3] at hx
          rcases ih _ x hx with hacc | ⟨hfl, hfree⟩
          · rcases List.mem_append.mp hacc with h | h
            · exact Or.inl h
            · exact Or.inr (hpairmem x h hf)
          · exact Or.inr ⟨by simp [pairFlat, hfl], hfree⟩
        · rw [if_neg h3] at hx
          rcases ih _ x hx with h | ⟨hfl, hfree⟩
          · exact Or.inl h
          · exact Or.inr ⟨by simp [pairFlat, hfl], hfree⟩
    · rw [if_neg hf] at hx
      rcases ih _ x hx with h | ⟨hfl, hfree⟩
      · exact Or.inl h
      · exact Or.inr ⟨by simp [pairFlat, hfl], hfree⟩

theorem pairPass_nodup {st : AllocState} {s e n : Nat} :
    ∀ (pairs : List (Nat × Nat)) (acc : List Nat),
    acc.Nodup → (pairFlat pairs).Nodup → (∀ y ∈ pairFlat pairs, y ∉ acc) →
    (pairPass st s e n pairs acc).Nodup := by
  intro pairs
  induction pairs with
  | nil =>
    intro acc hacc _ _
    exact hacc
  | cons p rest ih =>
    intro acc hacc hflat hdisj
    have hflat' : (p.1 :: p.2 :: pairFlat rest).Nodup := hflat
    rw [List.nodup_cons] at hflat'
    obtain ⟨hp1, hflat2⟩ := hflat'
    rw [List.nodup_cons] at hflat2
    obtain ⟨hp2, hflat3⟩ := hflat2
    have hne : p.1 ≠ p.2 := fun h => hp1 (by simp [h])
    simp only [pairPass]
    by_cases hf : (is_lane_free st p.1 s e && is_lane_free st p.2 s e) = true
    · rw [if_pos hf]
      by_cases h2 : (n == 2) = true
      · rw [if_pos h2]
        simp [hne]
      · rw [if_neg h2]
        by_cases h3 : 2 < n
        · rw [if_pos h3]
          refine ih _ ?_ hflat3 ?_
          · rw [List.nodup_append]
            refine ⟨hacc, by simp [hne], ?_⟩
            intro y hy
            simp only [List.mem_cons, List.mem_singleton]
            rintro (h | h | h)
            · exact hdisj p.1 (by simp [pairFlat]) (h ▸ hy)
            · exact hdisj p.2 (by simp [pairFlat]) (h ▸ hy)
            · simp at h
          · intro y hy
            rw [List.mem_append]
            rintro (h | h)
            · exact hdisj y (by simp [pairFlat, hy]) h
            · rcases (by simpa using h : y = p.1 ∨ y = p.2) with h | h
              · exact hp1 (by simp [← h, hy])
              · exact hp2 (h ▸ hy)
        · rw [if_neg h3]
          exact ih _ hacc hflat3 fun y hy => hdisj y (by simp [pairFlat, hy])
    · rw [if_neg hf]
      exact ih _ hacc hflat3 fun y hy => hdisj y (by simp [pairFlat, hy])

theorem fillPass_mem {st : AllocState} {s e n : Nat} :
    ∀ (poss acc : List Nat) (x : Nat),
    x ∈ fillPass st s e n poss acc →
    x ∈ acc ∨ (x ∈ poss ∧ is_lane_free st x s e = true) := by
  intro poss
  induction poss with
  | nil =>
    intro acc x hx
    exact Or.inl hx
  | cons l rest ih =>
    intro acc x hx
    simp only [fillPass] at hx
    by_cases hc : (!acc.contains l && is_lane_free st l s e) = true
    · rw [if_pos hc] at hx
      have hfl := (bool_and_elim hc).2
      by_cases hs : ((acc ++ [l]).length == n) = true
      · rw [if_pos hs] at hx
        rcases List.mem_append.mp hx with h | h
        · exact Or.inl h
        · exact Or.inr ⟨by simp [(by simpa using h : x = l)], (by simpa using h : x = l) ▸ hfl⟩
      · rw [if_neg hs] at hx
        rcases ih _ x hx with h | ⟨hm, hf⟩
        · rcases List.mem_append.mp h with h | h
          · exact Or.inl h
          · exact Or.inr ⟨by simp [(by simpa using h : x = l)], (by simpa using h : x = l) ▸ hfl⟩
        · exact Or.inr ⟨by simp [hm], hf⟩
    · rw [if_neg hc] at hx
      by_cases hs : (acc.length == n) = true
      · rw [if_pos hs] at hx
        exact Or.inl hx
      · rw [if_neg hs] at hx
        rcases ih _ x hx with h | ⟨hm, hf⟩
        · exact Or.inl h
        · exact Or.inr ⟨by simp [hm], hf⟩

theorem fillPass_nodup {st : AllocState} {s e n : Nat} :
    ∀ (poss acc : List Nat), acc.Nodup → (fillPass st s e n poss acc).Nodup := by
  intro poss
  induction poss with
  | nil =>
    intro acc hacc
    exact hacc
  | cons l rest ih =>
    intro acc hacc
    simp only [fillPass]
    by_cases hc : (!acc.contains l && is_lane_free st l s e) = true
    · rw [if_pos hc]
      have hnotin : l ∉ acc := by
        have := (bool_and_elim hc).1
        simpa using this
      have hacc2 : (acc ++ [l]).Nodup := by
        rw [List.nodup_append]
        refine ⟨hacc, List.nodup_singleton l, ?_⟩
        intro y hy hyl
        exact hnotin ((by simpa using hyl : y = l) ▸ hy)
      by_cases hs : ((acc ++ [l]).length == n) = true
      · rw [if_pos hs]; exact hacc2
      · rw [if_neg hs]; exact ih _ hacc2
    · rw [if_neg hc]
      by_cases hs : (acc.length == n) = true
      · rw [if_pos hs]; exact hacc
      · rw [if_neg hs]; exact ih _ hacc

theorem greedyLanes_mem {st : AllocState} {b : Booking}
    {pairs : List (Nat × Nat)} {poss : List Nat}
    (hsub : ∀ y ∈ pairFlat pairs, y ∈ poss) :
    ∀ x ∈ greedyLanes st b pairs poss,
      x ∈ poss ∧ is_lane_free st x b.start b.endTime = true := by
  intro x hx
  have hap : ∀ y, y ∈ pairPass st b.start b.endTime b.lanesNeeded pairs [] →
      y ∈ poss ∧ is_lane_free st y b.start b.endTime = true := by
    intro y hy
    rcases pairPass_mem pairs [] y hy with h | ⟨hm, hf⟩
    · simp at h
    · exact ⟨hsub y hm, hf⟩
  have hx' : x ∈ (if (pairPass st b.start b.endTime b.lanesNeeded pairs []).length <
      b.lanesNeeded then
        fillPass st b.start b.endTime b.lanesNeeded poss
          (pairPass st b.start b.endTime b.lanesNeeded pairs [])
      else pairPass st b.start b.endTime b.lanesNeeded pairs []) := hx
  by_cases hlt : (pairPass st b.start b.endTime b.lanesNeeded pairs []).length < b.lanesNeeded
  · rw [if_pos hlt] at hx'
    rcases fillPass_mem poss _ x hx' with h | ⟨hm, hf⟩
    · exact hap x h
    · exact ⟨hm, hf⟩
  · rw [if_neg hlt] at hx'
    exact hap x hx'

theorem greedyLanes_nodup {st : AllocState} {b : Booking}
    {pairs : List (Nat × Nat)} {poss : List Nat}
    (hflat : (pairFlat pairs).Nodup) : (greedyLanes st b pairs poss).Nodup := by
  have hap : (pairPass st b.start b.endTime b.lanesNeeded pairs []).Nodup :=
    pairPass_nodup pairs [] List.nodup_nil hflat (by simp)
  show (if (pairPass st b.start b.endTime b.lanesNeeded pairs []).length < b.lanesNeeded then
      fillPass st b.start b.endTime b.lanesNeeded poss
        (pairPass st b.start b.endTime b.lanesNeeded pairs [])
    else pairPass st b.start b.endTime b.lanesNeeded pairs []).Nodup
  split
  · exact fillPass_nodup poss _ hap
  · exact hap

theorem continuityLanes_spec (c : Bool) (st : AllocState) (b : Booking) :
    continuityLanes c st b = [] ∨
    ∃ a : Assignment, st.assignments.find? (prevMatch b) = some a ∧
      continuityLanes c st b = a.lanes ∧ a.lanes.length = b.lanesNeeded ∧
      ∀ l ∈ a.lanes, is_lane_free st l b.start b.endTime = true := by
  cases c with
  | false => exact Or.inl (by simp [continuityLanes])
  | true =>
    have hval : continuityLanes true st b =
        match st.assignments.find? (prevMatch b) with
        | some a =>
          if a.lanes.length == b.lanesNeeded
              && a.lanes.all (fun l => is_lane_free st l b.start b.endTime) then
            a.lanes
          else []
        | none => [] := by
      unfold continuityLanes
      rw [if_pos rfl]
    cases hfind : st.assignments.find? (prevMatch b) with
    | none =>
      rw [hfind] at hval
      exact Or.inl hval
    | some a =>
      rw [hfind] at hval
      have hval2 : continuityLanes true st b =
          if a.lanes.length == b.lanesNeeded
              && a.lanes.all (fun l => is_lane_free st l b.start b.endTime) then
            a.lanes
          else [] := hval
      by_cases hcond : (a.lanes.length == b.lanesNeeded
          && a.lanes.all fun l => is_lane_free st l b.start b.endTime) = true
      · right
        have hc := bool_and_elim hcond
        refine ⟨a, rfl, by rw [hval2, if_pos hcond], beq_iff_eq.mp hc.1, ?_⟩
        intro l hl
        exact List.all_eq_true.mp hc.2 l hl
      · left
        rw [hval2, if_neg hcond]

theorem bookLanes_eq : ∀ (ls : List Nat) (f : Nat → List (Nat × Nat)) (s e x : Nat),
    bookLanes f ls s e x = f x ++ List.replicate (ls.count x) (s, e) := by
  intro ls
  induction ls with
  | nil =>
    intro f s e x
    simp [bookLanes]
  | cons l rest ih =>
    intro f s e x
    have hstep : bookLanes f (l :: rest) s e =
        bookLanes (fun y => if y == l then f y ++ [(s, e)] else f y) rest s e := rfl
    rw [hstep, ih]
    by_cases hx : x = l
    · subst hx
      simp [List.count_cons, List.replicate_succ]
    · have h1 : (x == l) = false := beq_eq_false_iff_ne.mpr hx
      have h2 : (l == x) = false := beq_eq_false_iff_ne.mpr (Ne.symm hx)
      simp [h1, h2, List.count_cons]

theorem inv_commit {st : AllocState} {b : Booking} {ls : List Nat}
    (hinv : Inv st)
    (hfree : ∀ x ∈ ls, is_lane_free st x b.start b.endTime = true)
    (hnd : ls.Nodup)
    (hposs : ∀ x ∈ ls, x ∈ possible_lanes b.start)
    (hmin : b.start % 60 = 0 ∨ b.start % 60 = 30)
    (p : String → Option (Nat × List Nat)) :
    Inv { lanes := bookLanes st.lanes ls b.start b.endTime
          assignments := st.assignments ++
            [{ groep := b.groep, start := b.start, endTime := b.endTime, lanes := ls }]
          prev := p } := by
  obtain ⟨inv1, inv2, inv3, inv4, inv5⟩ := hinv
  have hcount : ∀ x, ls.count x ≤ 1 := List.nodup_iff_count_le_one.mp hnd
  refine ⟨?_, ?_, ?_, ?_, ?_⟩
  · intro l
    show (bookLanes st.lanes ls b.start b.endTime l).Pairwise ivCompat
    rw [bookLanes_eq]
    cases hc : ls.count l with
    | zero => simpa using inv1 l
    | succ k =>
      have hk : k = 0 := by have := hcount l; omega
      subst hk
      have hl : l ∈ ls := List.count_pos_iff.mp (by omega)
      rw [List.pairwise_append]
      refine ⟨inv1 l, by simp [ivCompat], ?_⟩
      intro x hx y hy
      have hy' : y = (b.start, b.endTime) := (List.mem_replicate.mp hy).2
      subst hy'
      have hfr := free_spec (hfree l hl) x hx
      intro hcon
      exact hfr ⟨hcon.2, hcon.1⟩
  · intro a ha
    rcases List.mem_append.mp ha with h | h
    · exact inv2 a h
    · have ha' : a = ⟨b.groep, b.start, b.endTime, ls⟩ := by simpa using h
      subst ha'
      exact hnd
  · intro a ha l hl
    show (a.start, a.endTime) ∈ bookLanes st.lanes ls b.start b.endTime l
    rw [bookLanes_eq]
    rcases List.mem_append.mp ha with h | h
    · exact List.mem_append.mpr (Or.inl (inv3 a h l hl))
    · have ha' : a = ⟨b.groep, b.start, b.endTime, ls⟩ := by simpa using h
      subst ha'
      refine List.mem_append.mpr (Or.inr ?_)
      have hpos : 0 < ls.count l := List.count_pos_iff.mpr hl
      rw [List.mem_replicate]
      exact ⟨by omega, rfl⟩
  · intro a ha
    rcases List.mem_append.mp ha with h | h
    · exact inv4 a h
    · have ha' : a = ⟨b.groep, b.start, b.endTime, ls⟩ := by simpa using h
      subst ha'
      exact ⟨hmin, hposs⟩
  · rw [List.pairwise_append]
    refine ⟨inv5, List.pairwise_singleton _ _, ?_⟩
    intro aOld hOld aNew hNew
    have ha' : aNew = ⟨b.groep, b.start, b.endTime, ls⟩ := by simpa using hNew
    subst ha'
    intro l hl1 hl2
    have hmem := inv3 aOld hOld l hl1
    have hfr := free_spec (hfree l hl2) (aOld.start, aOld.endTime) hmem
    intro hcon
    exact hfr ⟨hcon.2, hcon.1⟩

theorem pools_flat_nodup (s : Nat) : (pairFlat (possible_pairs s)).Nodup := by
  unfold possible_pairs
  split
  · decide
  · decide

theorem pools_flat_sub (s : Nat) :
    ∀ y ∈ pairFlat (possible_pairs s), y ∈ possible_lanes s := by
  unfold possible_pairs possible_lanes
  by_cases h : (s % 60 == 0) = true
  · rw [if_pos h, if_pos h]; decide
  · rw [if_neg h, if_neg h]; decide

theorem assigned_spec {st : AllocState} {b : Booking}
    {pairs : List (Nat × Nat)} {poss : List Nat} (c : Bool)
    (hinv : Inv st)
    (hpairs : pairs = possible_pairs b.start)
    (hposs : poss = possible_lanes b.start)
    {a1 : List Nat}
    (ha1 : a1 = if (continuityLanes c st b).isEmpty then greedyLanes st b pairs poss
      else continuityLanes c st b) :
    (∀ x ∈ a1, is_lane_free st x b.start b.endTime = true) ∧ a1.Nodup ∧
    (∀ x ∈ a1, x ∈ possible_lanes b.start) := by
  have hflat : (pairFlat pairs).Nodup := hpairs ▸ pools_flat_nodup b.start
  have hsub : ∀ y ∈ pairFlat pairs, y ∈ poss := by
    rw [hpairs, hposs]
    exact pools_flat_sub b.start
  have greedyKey : ∀ h1 : a1 = greedyLanes st b pairs poss,
      (∀ x ∈ a1, is_lane_free st x b.start b.endTime = true) ∧ a1.Nodup ∧
      (∀ x ∈ a1, x ∈ possible_lanes b.start) := by
    intro h1
    subst h1
    exact ⟨fun x hx => (greedyLanes_mem hsub x hx).2, greedyLanes_nodup hflat,
      fun x hx => hposs ▸ (greedyLanes_mem hsub x hx).1⟩
  rcases continuityLanes_spec c st b with hcl | ⟨a, hfind, hcl, _, hfr⟩
  · rw [hcl] at ha1
    simp only [List.isEmpty_nil, if_true] at ha1
    exact greedyKey ha1
  · rw [hcl] at ha1
    by_cases hemp : a.lanes.isEmpty = true
    · rw [if_pos hemp] at ha1
      exact greedyKey ha1
    · rw [if_neg hemp] at ha1
      subst ha1
      have hmem := List.mem_of_find?_eq_some hfind
      have hpm := List.find?_some hfind
      have hstart : a.start + 60 = b.start := by
        have := bool_and_elim hpm
        exact beq_iff_eq.mp this.2
      have hmod : a.start % 60 = b.start % 60 := by
        rw [← hstart]
        exact (Nat.add_mod_right _ _).symm
      refine ⟨hfr, hinv.2.1 a hmem, ?_⟩
      intro x hx
      have hx' := (hinv.2.2.2.1 a hmem).2 x hx
      rwa [possible_lanes_congr hmod] at hx'

theorem inv_assignFromPools {st : AllocState} {b : Booking}
    {pairs : List (Nat × Nat)} {poss : List Nat} (c : Bool)
    (hinv : Inv st)
    (hmin : b.start % 60 = 0 ∨ b.start % 60 = 30)
    (hpairs : pairs = possible_pairs b.start)
    (hposs : poss = possible_lanes b.start) :
    Inv (assignFromPools c st b pairs poss) := by
  rcases assignFromPools_cases c st b pairs poss with ⟨heq, _⟩ | ⟨a1, ha1, _, heq⟩
  · rw [heq]; exact hinv
  · rw [heq]
    have key := assigned_spec c hinv hpairs hposs ha1
    exact inv_commit hinv key.1 key.2.1 key.2.2 hmin _

theorem inv_processBooking (c : Bool) (st : AllocState) (b : Booking) (hinv : Inv st) :
    Inv (processBooking c st b) := by
  unfold processBooking
  by_cases h0 : (b.start % 60 == 0) = true
  · rw [if_pos h0]
    refine inv_assignFromPools c hinv (Or.inl (beq_iff_eq.mp h0)) ?_ ?_
    · unfold possible_pairs; rw [if_pos h0]
    · unfold possible_lanes; rw [if_pos h0]
  · rw [if_neg h0]
    by_cases h30 : (b.start % 60 == 30) = true
    · rw [if_pos h30]
      refine inv_assignFromPools c hinv (Or.inr (beq_iff_eq.mp h30)) ?_ ?_
      · unfold possible_pairs; rw [if_neg h0]
      · unfold possible_lanes; rw [if_neg h0]
    · rw [if_neg h30]
      exact hinv

theorem inv_foldBookings : ∀ (xs : List (Bool × Booking)) (st : AllocState), Inv st →
    Inv (xs.foldl (fun s x => processBooking x.1 s x.2) st) := by
  intro xs
  induction xs with
  | nil => intro st h; exact h
  | cons x rest ih => intro st h; exact ih _ (inv_processBooking x.1 st x.2 h)

theorem inv_processSlot (st : AllocState) (t : Nat) (rows : List Reservation) (hinv : Inv st) :
    Inv (processSlot st t rows) :=
  inv_foldBookings _ st hinv

theorem inv_init : Inv initState := by
  refine ⟨fun l => List.Pairwise.nil, ?_, ?_, ?_, List.Pairwise.nil⟩ <;>
    intro a ha <;> simp [initState] at ha

theorem inv_foldSlots : ∀ (slots : List (Nat × List Reservation)) (st : AllocState), Inv st →
    Inv (slots.foldl (fun s p => processSlot s p.1 p.2) st) := by
  intro slots
  induction slots with
  | nil => intro st h; exact h
  | cons x rest ih => intro st h; exact ih _ (inv_processSlot st x.1 x.2 h)

theorem inv_run (input : List Reservation) : Inv (runAllocator input) :=
  inv_foldSlots _ _ inv_init

/-- C2: over any input reservation sequence, no lane's booking list ever
holds two overlapping half-open intervals, and equivalently no two
emitted assignments sharing a lane have overlapping intervals. -/
theorem C2_no_double_booking : ∀ input : List Reservation,
    (∀ lane : Nat, ((runAllocator input).lanes lane).Pairwise
      fun x y => ¬(x.1 < y.2 ∧ x.2 > y.1)) ∧
    (runAllocator input).assignments.Pairwise
      fun a b => ∀ l, l ∈ a.lanes → l ∈ b.lanes →
        ¬(a.start < b.endTime ∧ a.endTime > b.start) := by
  intro input
  obtain ⟨i1, _, _, _, i5⟩ := inv_run input
  exact ⟨i1, i5⟩

/-- C6: every emitted assignment starting on the hour uses only lanes
1-4 and every assignment starting on the half hour uses only lanes 5-8,
on the continuity-reuse path as well, for any input sequence. -/
theorem C6_slot_eligibility : ∀ input : List Reservation,
    ∀ a ∈ (runAllocator input).assignments,
      (a.start % 60 = 0 → ∀ l ∈ a.lanes, l ∈ ([1, 2, 3, 4] : List Nat)) ∧
      (a.start % 60 = 30 → ∀ l ∈ a.lanes, l ∈ ([5, 6, 7, 8] : List Nat)) := by
  intro input a ha
  obtain ⟨_, _, _, i4, _⟩ := inv_run input
  obtain ⟨_, hl⟩ := i4 a ha
  constructor
  · intro h0 l hlm
    have hx := hl l hlm
    unfold possible_lanes at hx
    rwa [if_pos (beq_iff_eq.mpr h0)] at hx
  · intro h30 l hlm
    have hx := hl l hlm
    unfold possible_lanes at hx
    rwa [if_neg (by rw [h30]; decide)] at hx

theorem C6_slot_eligibility_witness :
    ({ groep := "A", start := 600, endTime := 655, lanes := [1, 2] } : Assignment) ∈
      (runAllocator [⟨"A", 600, 2⟩]).assignments ∧
    ∀ l ∈ ({ groep := "A", start := 600, endTime := 655, lanes := [1, 2] } : Assignment).lanes,
      l ∈ ([1, 2, 3, 4] : List Nat) :=
  ⟨by decide, (C6_slot_eligibility [⟨"A", 600, 2⟩]
    { groep := "A", start := 600, endTime := 655, lanes := [1, 2] } (by decide)).1 (by decide)⟩

theorem invalid_skip (c : Bool) (st : AllocState) (b : Booking)
    (h0 : b.start % 60 ≠ 0) (h30 : b.start % 60 ≠ 30) : processBooking c st b = st := by
  unfold processBooking
  rw [if_neg (by simpa using h0), if_neg (by simpa using h30)]

theorem unmet_skip {st : AllocState} {b : Booking}
    {pairs : List (Nat × Nat)} {poss : List Nat} (c : Bool)
    (hinv : Inv st)
    (hcnt : (freeEligible st b).length < b.lanesNeeded)
    (hpairs : pairs = possible_pairs b.start)
    (hposs : poss = possible_lanes b.start) :
    assignFromPools c st b pairs poss = st := by
  rcases assignFromPools_cases c st b pairs poss with ⟨heq, _⟩ | ⟨a1, ha1, hlen, heq⟩
  · exact heq
  · exfalso
    apply hlen
    have key := assigned_spec c hinv hpairs hposs ha1
    have hsubF : a1 ⊆ freeEligible st b := by
      intro x hx
      unfold freeEligible
      rw [List.mem_filter]
      exact ⟨key.2.2 x hx, key.1 x hx⟩
    have hle := (key.2.1.subperm hsubF).length_le
    omega

/-- C7: a reservation whose start minute is not 0 or 30, or whose pool
holds fewer free eligible lanes than it needs, changes nothing -- no
assignment is emitted, no lane gains a booking interval -- and on the
invalid-minute side the processing fold simply continues with the
remaining bookings.  Totality of the fold models that no run aborts. -/
theorem C7_skip_and_continue :
    (∀ (c : Bool) (st : AllocState) (b : Booking),
      b.start % 60 ≠ 0 → b.start % 60 ≠ 30 → processBooking c st b = st) ∧
    (∀ (c : Bool) (st : AllocState) (b : Booking), Inv st →
      (freeEligible st b).length < b.lanesNeeded → processBooking c st b = st) ∧
    (∀ (xs ys : List (Bool × Booking)) (c : Bool) (st : AllocState) (b : Booking),
      b.start % 60 ≠ 0 → b.start % 60 ≠ 30 →
      (xs ++ (c, b) :: ys).foldl (fun s x => processBooking x.1 s x.2) st =
        (xs ++ ys).foldl (fun s x => processBooking x.1 s x.2) st) := by
  refine ⟨invalid_skip, ?_, ?_⟩
  · intro c st b hinv hcnt
    unfold processBooking
    by_cases h0 : (b.start % 60 == 0) = true
    · rw [if_pos h0]
      refine unmet_skip c hinv hcnt ?_ ?_
      · unfold possible_pairs; rw [if_pos h0]
      · unfold possible_lanes; rw [if_pos h0]
    · rw [if_neg h0]
      by_cases h30 : (b.start % 60 == 30) = true
      · rw [if_pos h30]
        refine unmet_skip c hinv hcnt ?_ ?_
        · unfold possible_pairs; rw [if_neg h0]
        · unfold possible_lanes; rw [if_neg h0]
      · rw [if_neg h30]
  · intro xs ys c st b h0 h30
    rw [List.foldl_append, List.foldl_append, List.foldl_cons,
      invalid_skip c _ b h0 h30]

theorem C7_skip_and_continue_witness :
    processBooking false initState ⟨"A", 2, 615, 670⟩ = initState ∧
    processBooking false initState ⟨"A", 5, 600, 655⟩ = initState :=
  ⟨C7_skip_and_continue.1 false initState ⟨"A", 2, 615, 670⟩ (by decide) (by decide),
    C7_skip_and_continue.2.1 false initState ⟨"A", 5, 600, 655⟩ inv_init (by decide)⟩

theorem pairPass_find {st : AllocState} {s e : Nat} :
    ∀ (pairs : List (Nat × Nat)) (p : Nat × Nat),
    pairs.find? (fun q => is_lane_free st q.1 s e && is_lane_free st q.2 s e) = some p →
    pairPass st s e 2 pairs [] = [p.1, p.2] := by
  intro pairs
  induction pairs with
  | nil =>
    intro p h
    simp at h
  | cons q rest ih =>
    intro p h
    by_cases hq : (is_lane_free st q.1 s e && is_lane_free st q.2 s e) = true
    · rw [@List.find?_cons_of_pos _
        (fun q => is_lane_free st q.1 s e && is_lane_free st q.2 s e) q rest hq] at h
      have hqp : q = p := Option.some.inj h
      simp only [pairPass]
      rw [if_pos hq]
      simp [hqp]
    · rw [@List.find?_cons_of_neg _
        (fun q => is_lane_free st q.1 s e && is_lane_free st q.2 s e) q rest hq] at h
      simp only [pairPass]
      rw [if_neg hq]
      exact ih p h

/-- C5: a reservation needing exactly two lanes that does not take the
continuity path and whose eligible half holds at least one fully free
facing pair is assigned exactly the first such pair of the scan order,
never one lane from each of two pairs. -/
theorem C5_facing_pair_preference : ∀ (c : Bool) (st : AllocState) (b : Booking) (p : Nat × Nat),
    b.lanesNeeded = 2 →
    continuityLanes c st b = [] →
    (b.start % 60 = 0 ∨ b.start % 60 = 30) →
    (possible_pairs b.start).find?
      (fun q => is_lane_free st q.1 b.start b.endTime && is_lane_free st q.2 b.start b.endTime)
      = some p →
    p ∈ possible_pairs b.start ∧
    (processBooking c st b).assignments = st.assignments ++
      [{ groep := b.groep, start := b.start, endTime := b.endTime, lanes := [p.1, p.2] }] := by
  intro c st b p hn hcl hmin hfind
  refine ⟨List.mem_of_find?_eq_some hfind, ?_⟩
  have main : ∀ poss : List Nat,
      (assignFromPools c st b (possible_pairs b.start) poss).assignments = st.assignments ++
        [{ groep := b.groep, start := b.start, endTime := b.endTime, lanes := [p.1, p.2] }] := by
    intro poss
    have hgreedy : greedyLanes st b (possible_pairs b.start) poss = [p.1, p.2] := by
      have hpp : pairPass st b.start b.endTime b.lanesNeeded (possible_pairs b.start) []
          = [p.1, p.2] := by
        rw [hn]
        exact pairPass_find _ p hfind
      show (if (pairPass st b.start b.endTime b.lanesNeeded (possible_pairs b.start) []).length <
          b.lanesNeeded then
            fillPass st b.start b.endTime b.lanesNeeded poss
              (pairPass st b.start b.endTime b.lanesNeeded (possible_pairs b.start) [])
          else pairPass st b.start b.endTime b.lanesNeeded (possible_pairs b.start) [])
        = [p.1, p.2]
      rw [hpp, hn, if_neg (by simp)]
    rcases assignFromPools_cases c st b (possible_pairs b.start) poss with
      ⟨_, hlt⟩ | ⟨a1, ha1, _, heq⟩
    · exfalso
      rw [hcl] at hlt
      simp only [List.isEmpty_nil, if_true] at hlt
      rw [hgreedy, hn] at hlt
      simp at hlt
    · rw [hcl] at ha1
      simp only [List.isEmpty_nil, if_true] at ha1
      rw [hgreedy] at ha1
      rw [heq, ha1]
  unfold processBooking
  rcases hmin with h0 | h30
  · rw [if_pos (beq_iff_eq.mpr h0)]
    have hpe : possible_pairs b.start = [(1, 2), (3, 4)] := by
      unfold possible_pairs
      rw [if_pos (beq_iff_eq.mpr h0)]
    rw [← hpe]
    exact main [1, 2, 3, 4]
  · have hne : (b.start % 60 == 0) = false := by rw [h30]; decide
    rw [if_neg (by simp [hne]), if_pos (beq_iff_eq.mpr h30)]
    have hpe : possible_pairs b.start = [(5, 6), (7, 8)] := by
      unfold possible_pairs
      rw [hne]
      decide
    rw [← hpe]
    exact main [5, 6, 7, 8]

theorem C5_facing_pair_preference_witness :
    (1, 2) ∈ possible_pairs (600 : Nat) ∧
    (processBooking false initState ⟨"A", 2, 600, 655⟩).assignments =
      initState.assignments ++
        [{ groep := "A", start := 600, endTime := 655, lanes := [1, 2] }] := by
  have h := C5_facing_pair_preference false initState ⟨"A", 2, 600, 655⟩ (1, 2)
    (by decide) (by decide) (Or.inl (by decide)) (by decide)
  exact h

theorem assignFromPools_ext (c c' : Bool) (st : AllocState) (b : Booking)
    (pairs : List (Nat × Nat)) (poss : List Nat)
    (h : continuityLanes c st b = continuityLanes c' st b) :
    assignFromPools c st b pairs poss = assignFromPools c' st b pairs poss := by
  unfold assignFromPools
  rw [h]

/-- C3 amended: the consecutive-booking branch reuses the lanes of the
first emitted assignment of the same group that started exactly one hour
earlier (on the valid half-hour start grid that exact-hour test is the
same as putting the 5-minute tolerance against that record's end, not
against the group's most recent record), provided its lane count equals
the current requirement and all its lanes are free; whenever that branch
yields nothing the reservation is processed exactly like a fresh one,
through the greedy pass.  A group holding lanes 1 and 2 for 10:00-10:55
gets them again at 11:00 for 2 lanes, needing 3 lanes instead forfeits
continuity and falls to the greedy pass, and the reused record needs not
be the group's most recent one (the third run below reuses lanes 3 and 4
although the greedy pass would give 1 and 2). -/
theorem C3_continuity_rule :
    (∀ (st : AllocState) (b : Booking) (a : Assignment),
      (b.start % 60 = 0 ∨ b.start % 60 = 30) →
      st.assignments.find? (prevMatch b) = some a →
      a.lanes.length = b.lanesNeeded →
      0 < b.lanesNeeded →
      (∀ l ∈ a.lanes, is_lane_free st l b.start b.endTime = true) →
      (processBooking true st b).assignments = st.assignments ++
        [{ groep := b.groep, start := b.start, endTime := b.endTime, lanes := a.lanes }]) ∧
    (∀ (c : Bool) (st : AllocState) (b : Booking),
      continuityLanes c st b = [] → processBooking c st b = processBooking false st b) ∧
    ((runAllocator [⟨"G", 600, 2⟩, ⟨"G", 660, 2⟩]).assignments.map fun a => a.lanes)
      = [[1, 2], [1, 2]] ∧
    ((runAllocator [⟨"G", 600, 2⟩, ⟨"G", 660, 3⟩]).assignments.map fun a => a.lanes)
      = [[1, 2], [1, 2, 3, 4]] ∧
    ((runAllocator [⟨"A", 600, 2⟩, ⟨"B", 600, 2⟩, ⟨"B", 660, 2⟩]).assignments.map fun a => a.lanes)
      = [[1, 2], [3, 4], [3, 4]] := by
  refine ⟨?_, ?_, by decide, by decide, by decide⟩
  case refine_2 =>
    intro c st b hcl
    have hfalse : continuityLanes c st b = continuityLanes false st b := by
      rw [hcl]
      simp [continuityLanes]
    unfold processBooking
    split
    · exact assignFromPools_ext c false st b _ _ hfalse
    · split
      · exact assignFromPools_ext c false st b _ _ hfalse
      · rfl
  intro st b a hmin hfind hlen hpos hfr
  have hcl : continuityLanes true st b = a.lanes := by
    have hval : continuityLanes true st b =
        match st.assignments.find? (prevMatch b) with
        | some a =>
          if a.lanes.length == b.lanesNeeded
              && a.lanes.all (fun l => is_lane_free st l b.start b.endTime) then
            a.lanes
          else []
        | none => [] := by
      unfold continuityLanes
      rw [if_pos rfl]
    rw [hfind] at hval
    have hval2 : continuityLanes true st b =
        if a.lanes.length == b.lanesNeeded
            && a.lanes.all (fun l => is_lane_free st l b.start b.endTime) then
          a.lanes
        else [] := hval
    rw [hval2, if_pos (by
      rw [Bool.and_eq_true]
      exact ⟨beq_iff_eq.mpr hlen, List.all_eq_true.mpr hfr⟩)]
  have hne : a.lanes.isEmpty = false := by
    cases hl : a.lanes with
    | nil =>
      rw [hl] at hlen
      simp at hlen
      omega
    | cons x xs => rfl
  have main : ∀ (pairs : List (Nat × Nat)) (poss : List Nat),
      (assignFromPools true st b pairs poss).assignments = st.assignments ++
        [{ groep := b.groep, start := b.start, endTime := b.endTime, lanes := a.lanes }] := by
    intro pairs poss
    rcases assignFromPools_cases true st b pairs poss with ⟨_, hlt⟩ | ⟨a1, ha1, _, heq⟩
    · exfalso
      rw [hcl] at hlt
      rw [hne] at hlt
      simp at hlt
      omega
    · rw [hcl] at ha1
      rw [hne] at ha1
      simp at ha1
      rw [heq, ha1]
  unfold processBooking
  rcases hmin with h0 | h30
  · rw [if_pos (beq_iff_eq.mpr h0)]
    exact main _ _
  · by_cases hz : (b.start % 60 == 0) = true
    · rw [if_pos hz]
      exact main _ _
    · rw [if_neg hz, if_pos (beq_iff_eq.mpr h30)]
      exact main _ _

theorem C3_continuity_rule_witness :
    (processBooking true (runAllocator [⟨"G", 600, 2⟩]) ⟨"G", 2, 660, 715⟩).assignments =
      (runAllocator [⟨"G", 600, 2⟩]).assignments ++
        [{ groep := "G", start := 660, endTime := 715,
           lanes := (⟨"G", 600, 655, [1, 2]⟩ : Assignment).lanes }] :=
  C3_continuity_rule.1 (runAllocator [⟨"G", 600, 2⟩]) ⟨"G", 2, 660, 715⟩
    ⟨"G", 600, 655, [1, 2]⟩ (Or.inl (by decide)) (by decide) (by decide) (by decide) (by decide)

/-- C3 fails as stated: after group B holds lanes 3,4 at 10:00 and lanes
5,6 at 10:30, its most recent record ends at 11:25, 25 minutes away from
the 11:00 start, so by the claim continuity must not apply and the
greedy pass would assign lanes 1,2 (the first free pair); the code
instead finds the 10:00 record an hour back and reuses lanes 3,4. -/
theorem C3_counterexample :
    ((runAllocator [⟨"A", 600, 2⟩, ⟨"B", 600, 2⟩, ⟨"B", 630, 2⟩, ⟨"B", 660, 2⟩]).assignments.map
      fun a => (a.groep, a.start, a.lanes))
      = [("A", 600, [1, 2]), ("B", 600, [3, 4]), ("B", 630, [5, 6]), ("B", 660, [3, 4])] ∧
    (runAllocator [⟨"A", 600, 2⟩, ⟨"B", 600, 2⟩, ⟨"B", 630, 2⟩]).prev "B"
      = some (685, [5, 6]) ∧
    ¬ Nat.dist 660 685 ≤ 5 ∧
    pairPass (runAllocator [⟨"A", 600, 2⟩, ⟨"B", 600, 2⟩, ⟨"B", 630, 2⟩]) 660 715 2
      [(1, 2), (3, 4)] [] = [1, 2] := by
  refine ⟨by decide, by decide, by decide, by decide⟩

theorem mem_insNat : ∀ (l : List Nat) (n x : Nat), x ∈ insNat n l ↔ x = n ∨ x ∈ l := by
  intro l
  induction l with
  | nil =>
    intro n x
    simp [insNat]
  | cons y ys ih =>
    intro n x
    simp only [insNat]
    by_cases h1 : y < n
    · rw [if_pos h1]
      simp only [List.mem_cons, ih]
      tauto
    · rw [if_neg h1]
      by_cases h2 : (y == n) = true
      · rw [if_pos h2]
        have hyn : y = n := beq_iff_eq.mp h2
        subst hyn
        simp only [List.mem_cons]
        tauto
      · rw [if_neg h2]
        simp only [List.mem_cons]

theorem pairwise_insNat : ∀ (l : List Nat) (n : Nat), l.Pairwise (· < ·) →
    (insNat n l).Pairwise (· < ·) := by
  intro l
  induction l with
  | nil =>
    intro n _
    simp [insNat]
  | cons y ys ih =>
    intro n hp
    rw [List.pairwise_cons] at hp
    obtain ⟨hy, hys⟩ := hp
    simp only [insNat]
    by_cases h1 : y < n
    · rw [if_pos h1, List.pairwise_cons]
      refine ⟨?_, ih n hys⟩
      intro z hz
      rcases (mem_insNat ys n z).mp hz with h | h
      · exact h ▸ h1
      · exact hy z h
    · rw [if_neg h1]
      by_cases h2 : (y == n) = true
      · rw [if_pos h2]
        exact List.pairwise_cons.mpr ⟨hy, hys⟩
      · rw [if_neg h2]
        have hne : ¬ y = n := fun h => h2 (beq_iff_eq.mpr h)
        have hn : n < y := by omega
        rw [List.pairwise_cons]
        refine ⟨?_, List.pairwise_cons.mpr ⟨hy, hys⟩⟩
        intro z hz
        rcases List.mem_cons.mp hz with h | h
        · exact h ▸ hn
        · exact lt_trans hn (hy z h)

theorem slotTimes_sorted (l : List Reservation) : (slotTimes l).Pairwise (· < ·) := by
  unfold slotTimes
  induction l with
  | nil => simp
  | cons r rs ih =>
    rw [List.foldr_cons]
    exact pairwise_insNat _ _ ih

theorem mem_slotTimes : ∀ (l : List Reservation) (t : Nat),
    t ∈ slotTimes l ↔ ∃ r ∈ l, r.start = t := by
  intro l
  induction l with
  | nil =>
    intro t
    simp [slotTimes]
  | cons r rs ih =>
    intro t
    unfold slotTimes at ih ⊢
    rw [List.foldr_cons, mem_insNat]
    simp only [List.mem_cons, ih]
    constructor
    · rintro (h | ⟨x, hx, hxs⟩)
      · exact ⟨r, Or.inl rfl, h.symm⟩
      · exact ⟨x, Or.inr hx, hxs⟩
    · rintro ⟨x, hx | hx, hxs⟩
      · subst hx
        exact Or.inl hxs.symm
      · exact Or.inr ⟨x, hx, hxs⟩

theorem insRes_perm : ∀ (l : List Reservation) (r : Reservation),
    (insRes r l).Perm (r :: l) := by
  intro l
  induction l with
  | nil =>
    intro r
    exact List.Perm.refl _
  | cons x xs ih =>
    intro r
    simp only [insRes]
    by_cases h : resLt x r = true
    · rw [if_pos h]
      exact (List.Perm.cons x (ih r)).trans (List.Perm.swap r x xs)
    · rw [if_neg h]

theorem sortRows_perm : ∀ l : List Reservation, (sortRows l).Perm l := by
  intro l
  induction l with
  | nil => exact List.Perm.refl _
  | cons r rs ih =>
    rw [sortRows]
    exact (insRes_perm _ r).trans (List.Perm.cons r ih)

theorem map_fst_pair : ∀ (ts : List Nat) (f : Nat → List Reservation),
    (ts.map fun t => (t, f t)).map Prod.fst = ts := by
  intro ts f
  induction ts with
  | nil => rfl
  | cons t rest ih => simp [ih]

theorem slotSequence_flags (asg : List Assignment) (t : Nat) (rows : List Reservation) :
    ∀ x ∈ slotSequence asg t rows, x.1 = isConsecutive asg x.2.groep t := by
  intro x hx
  have hx' : x ∈ rows.map fun r => (isConsecutive asg r.groep t, mkBooking t r) := by
    unfold slotSequence at hx
    rcases List.mem_append.mp hx with h | h
    · exact List.mem_of_mem_filter h
    · exact List.mem_of_mem_filter h
  obtain ⟨r, _, hr⟩ := List.mem_map.mp hx'
  rw [← hr]
  rfl

theorem slotSequence_order (asg : List Assignment) (t : Nat) (rows : List Reservation) :
    (slotSequence asg t rows).Pairwise fun x y => y.1 = true → x.1 = true := by
  unfold slotSequence
  rw [List.pairwise_append]
  refine ⟨?_, ?_, ?_⟩
  · refine List.pairwise_of_forall_mem_list ?_
    intro x hx _ _ _
    exact List.of_mem_filter hx
  · refine List.pairwise_of_forall_mem_list ?_
    intro x hx y hy hy1
    have hyf := List.of_mem_filter hy
    rw [hy1] at hyf
    simp at hyf
  · intro x hx y _ _
    exact List.of_mem_filter hx

/-- C8: the rows are sorted and then grouped into slots keyed by their
exact start time, the slot keys are strictly increasing (chronological
processing), every input row lands in the slot of its start time, and
inside a slot the processing sequence places every row flagged as a
continuation of the hour-earlier assignments ahead of every new row,
with the flag agreeing with the consecutive-booking test. -/
theorem C8_processing_order : ∀ input : List Reservation,
    ((groupSlots (sortRows input)).map Prod.fst).Pairwise (· < ·) ∧
    (∀ p ∈ groupSlots (sortRows input), ∀ r ∈ p.2, r.start = p.1) ∧
    (sortRows input).Perm input ∧
    (∀ r ∈ input, ∃ p ∈ groupSlots (sortRows input), r ∈ p.2) ∧
    (∀ (asg : List Assignment) (t : Nat) (rows : List Reservation),
      (∀ x ∈ slotSequence asg t rows, x.1 = isConsecutive asg x.2.groep t) ∧
      (slotSequence asg t rows).Pairwise fun x y => y.1 = true → x.1 = true) := by
  intro input
  refine ⟨?_, ?_, sortRows_perm input, ?_,
    fun asg t rows => ⟨slotSequence_flags asg t rows, slotSequence_order asg t rows⟩⟩
  · rw [show (groupSlots (sortRows input)).map Prod.fst = slotTimes (sortRows input) from
      map_fst_pair _ _]
    exact slotTimes_sorted _
  · intro p hp r hr
    unfold groupSlots at hp
    obtain ⟨t, _, hpt⟩ := List.mem_map.mp hp
    rw [← hpt] at hr ⊢
    have hr2 : r ∈ (sortRows input).filter fun x => x.start == t := hr
    have hf := List.of_mem_filter hr2
    show r.start = t
    exact beq_iff_eq.mp hf
  · intro r hrin
    have hsorted : r ∈ sortRows input := (sortRows_perm input).mem_iff.mpr hrin
    refine ⟨(r.start, (sortRows input).filter fun x => x.start == r.start), ?_, ?_⟩
    · unfold groupSlots
      exact List.mem_map.mpr ⟨r.start, (mem_slotTimes _ _).mpr ⟨r, hsorted, rfl⟩, rfl⟩
    · rw [List.mem_filter]
      exact ⟨hsorted, beq_self_eq_true _⟩

theorem C8_processing_order_witness :
    (sortRows [⟨"A", 600, 2⟩, ⟨"B", 630, 1⟩]).Perm [⟨"A", 600, 2⟩, ⟨"B", 630, 1⟩] ∧
    ∃ p ∈ groupSlots (sortRows [⟨"A", 600, 2⟩, ⟨"B", 630, 1⟩]),
      (⟨"A", 600, 2⟩ : Reservation) ∈ p.2 :=
  ⟨(C8_processing_order [⟨"A", 600, 2⟩, ⟨"B", 630, 1⟩]).2.2.1,
    (C8_processing_order [⟨"A", 600, 2⟩, ⟨"B", 630, 1⟩]).2.2.2.1 ⟨"A", 600, 2⟩ (by decide)⟩

end Banen
